import Mathlib

/-!
Verification of the `InlineString` fixed-capacity inline UTF-8 buffer
(`src/inline_string.rs`) against its natural-language specification.

The Rust type `InlineString { length: u8, bytes: [u8; INLINE_STRING_CAPACITY] }`
is embedded shallowly: bytes are `Nat` values (each `< 256` in every reachable
state), the fixed array is a `List Nat` of length `INLINE_STRING_CAPACITY`, and
the `u8` length field is a `Nat` with the `as u8` casts of the source written as
`% 256`.  Mutating methods on `&mut self` become functions returning the result
value together with the post state; a method that can panic returns `Option`
(`none` models the panic).  Rust `char` values are their Unicode scalar values
as `Nat`; the UTF-8 encode/decode functions below model the Rust standard
library semantics (`char::len_utf8`, `str::chars`, `str::char_indices`,
`str::is_char_boundary`) that the source relies on.
-/

/-- Capacity of the inline storage: `size_of::<String>() + size_of::<usize>() - 2`
on the reference 64-bit target, i.e. `24 + 8 - 2 = 30` bytes. -/
def INLINE_STRING_CAPACITY : Nat := 30

/-- The Rust structure `InlineString { length: u8, bytes: [u8; CAPACITY] }`. -/
structure InlineString where
  length : Nat
  bytes : List Nat
deriving DecidableEq

/-- Error type `NotEnoughSpaceError` returned by the fallible mutators. -/
inductive NotEnoughSpaceError where
  | notEnoughSpace
deriving DecidableEq

/-- Error type `NotEnoughCapacityError` returned by the `TryFrom<&str>` impl. -/
inductive NotEnoughCapacityError where
  | notEnoughCapacity
deriving DecidableEq

/-- Model of `char::len_utf8` on a Unicode scalar value. -/
def utf8Len (c : Nat) : Nat :=
  if c < 0x80 then 1
  else if c < 0x800 then 2
  else if c < 0x10000 then 3
  else 4

/-- The UTF-8 encoding of a Unicode scalar value, as produced by the standard
library when the source formats a `char` into a byte slice. -/
def encodeChar (c : Nat) : List Nat :=
  if c < 0x80 then [c]
  else if c < 0x800 then
    [0xC0 + c / 64, 0x80 + c % 64]
  else if c < 0x10000 then
    [0xE0 + c / 4096, 0x80 + c / 64 % 64, 0x80 + c % 64]
  else
    [0xF0 + c / 262144, 0x80 + c / 4096 % 64, 0x80 + c / 64 % 64, 0x80 + c % 64]

/-- A Unicode scalar value: below `0x110000` and not a surrogate. -/
def Scalar (c : Nat) : Prop := c < 0x110000 ∧ (c < 0xD800 ∨ 0xE000 ≤ c)

instance (c : Nat) : Decidable (Scalar c) := by
  unfold Scalar; infer_instance

/-- Decoding of a two-byte UTF-8 sequence with lead byte `b0`. -/
def decodeTail2 (b0 : Nat) : List Nat → Option (Nat × Nat)
  | b1 :: _ =>
    if 0x80 ≤ b1 ∧ b1 < 0xC0 then
      some ((b0 - 0xC0) * 64 + (b1 - 0x80), 2)
    else none
  | [] => none

/-- Decoding of a three-byte UTF-8 sequence with lead byte `b0`; the lead
bytes `E0` and `ED` restrict the second byte to exclude overlong encodings
and surrogates. -/
def decodeTail3 (b0 : Nat) : List Nat → Option (Nat × Nat)
  | b1 :: b2 :: _ =>
    if (0x80 ≤ b1 ∧ b1 < 0xC0) ∧ (0x80 ≤ b2 ∧ b2 < 0xC0) ∧
        (b0 = 0xE0 → 0xA0 ≤ b1) ∧ (b0 = 0xED → b1 < 0xA0) then
      some ((b0 - 0xE0) * 4096 + (b1 - 0x80) * 64 + (b2 - 0x80), 3)
    else none
  | _ => none

/-- Decoding of a four-byte UTF-8 sequence with lead byte `b0`; the lead
bytes `F0` and `F4` restrict the second byte to exclude overlong encodings
and values above `0x10FFFF`. -/
def decodeTail4 (b0 : Nat) : List Nat → Option (Nat × Nat)
  | b1 :: b2 :: b3 :: _ =>
    if (0x80 ≤ b1 ∧ b1 < 0xC0) ∧ (0x80 ≤ b2 ∧ b2 < 0xC0) ∧
        (0x80 ≤ b3 ∧ b3 < 0xC0) ∧
        (b0 = 0xF0 → 0x90 ≤ b1) ∧ (b0 = 0xF4 → b1 < 0x90) then
      some ((b0 - 0xF0) * 262144 + (b1 - 0x80) * 4096 +
        (b2 - 0x80) * 64 + (b3 - 0x80), 4)
    else none
  | _ => none

/-- UTF-8 decoding of the first character of a byte sequence, following the
standard library validation table: returns the scalar value and its byte
width, or `none` when no valid character starts the sequence. -/
def decodeChar : List Nat → Option (Nat × Nat)
  | [] => none
  | b0 :: rest =>
    if b0 < 0x80 then some (b0, 1)
    else if b0 < 0xC2 then none
    else if b0 < 0xE0 then decodeTail2 b0 rest
    else if b0 < 0xF0 then decodeTail3 b0 rest
    else if b0 < 0xF5 then decodeTail4 b0 rest
    else none

/-- Fuel-driven UTF-8 validity scan (`str::from_utf8(..).is_ok()`); the fuel is
always instantiated with the byte count, which suffices since every decoded
character consumes at least one byte. -/
def validUtf8Go : Nat → List Nat → Bool
  | _, [] => true
  | 0, _ :: _ => false
  | fuel + 1, b :: bs =>
    match decodeChar (b :: bs) with
    | none => false
    | some (_, w) => validUtf8Go fuel ((b :: bs).drop w)

/-- Model of `str::from_utf8(bs).is_ok()`: the byte sequence is valid UTF-8. -/
def validUtf8 (bs : List Nat) : Bool := validUtf8Go bs.length bs

/-- Fuel-driven model of `str::char_indices`: the byte offset and scalar value
of each character, decoding from the front. -/
def charIdxGo : Nat → Nat → List Nat → List (Nat × Nat)
  | _, _, [] => []
  | 0, _, _ :: _ => []
  | fuel + 1, off, b :: bs =>
    match decodeChar (b :: bs) with
    | none => []
    | some (c, w) => (off, c) :: charIdxGo fuel (off + w) ((b :: bs).drop w)

/-- Model of `str::char_indices` over a byte sequence. -/
def charIndices (bs : List Nat) : List (Nat × Nat) := charIdxGo bs.length 0 bs

/-- Model of `str::is_char_boundary`: offset `0` is always a boundary; past the end only
the exact length is; otherwise the byte at the offset must not be a UTF-8
continuation byte. -/
def isCharBoundary (s : List Nat) (i : Nat) : Bool :=
  if i = 0 then true
  else
    match s[i]? with
    | none => i == s.length
    | some b => decide (b < 0x80 ∨ 0xC0 ≤ b)

/-- Overwrite `src.length` bytes of `dst` starting at offset `off` (the
`ptr::copy_nonoverlapping` / byte-slice `write!` writes of the source). -/
def writeBytes (dst : List Nat) (off : Nat) (src : List Nat) : List Nat :=
  dst.take off ++ src ++ dst.drop (off + src.length)

/-- Constructor `InlineString::new()`: zero length, zero-filled storage. -/
def InlineString.new : InlineString :=
  { length := 0, bytes := List.replicate INLINE_STRING_CAPACITY 0 }

/-- Accessor `InlineString::len()`. -/
def InlineString.len (st : InlineString) : Nat := st.length

/-- Accessor `InlineString::is_empty()`. -/
def InlineString.is_empty (st : InlineString) : Bool := st.length == 0

/-- Accessor `InlineString::as_bytes()`: the occupied prefix `bytes[0..length]`. -/
def InlineString.as_bytes (st : InlineString) : List Nat :=
  st.bytes.take st.length

/-- The debug-build invariant check `InlineString::assert_sanity`:
`length <= INLINE_STRING_CAPACITY` and `bytes[0..length]` is valid UTF-8. -/
def assert_sanity (st : InlineString) : Bool :=
  decide (st.length ≤ INLINE_STRING_CAPACITY) && validUtf8 (st.bytes.take st.length)

/-- Constructor `InlineString::from_str_unchecked`: copy the slice into a fresh zeroed
buffer and set the length (`string_len as u8`). -/
def from_str_unchecked (s : List Nat) : InlineString :=
  { length := s.length % 256
    bytes := writeBytes InlineString.new.bytes 0 s }

/-- The `TryFrom<&str>` impl: length-checked construction. -/
def try_from (s : List Nat) : Except NotEnoughCapacityError InlineString :=
  if s.length ≤ INLINE_STRING_CAPACITY then
    Except.ok (from_str_unchecked s)
  else
    Except.error NotEnoughCapacityError.notEnoughCapacity

/-- Mutator `InlineString::push_str`: capacity check, then a disjoint copy at offset
`length` and the length update. -/
def InlineString.push_str (st : InlineString) (s : List Nat) :
    Except NotEnoughSpaceError Unit × InlineString :=
  let new_length := st.len + s.length
  if INLINE_STRING_CAPACITY < new_length then
    (Except.error NotEnoughSpaceError.notEnoughSpace, st)
  else
    (Except.ok (),
      { length := new_length % 256
        bytes := writeBytes st.bytes st.length s })

/-- Mutator `InlineString::push`: capacity check, then the UTF-8 bytes of the character
are written at offset `length` and the length is updated. -/
def InlineString.push (st : InlineString) (ch : Nat) :
    Except NotEnoughSpaceError Unit × InlineString :=
  let char_len := utf8Len ch
  let new_length := st.len + char_len
  if INLINE_STRING_CAPACITY < new_length then
    (Except.error NotEnoughSpaceError.notEnoughSpace, st)
  else
    (Except.ok (),
      { length := new_length % 256
        bytes := writeBytes st.bytes st.length (encodeChar ch) })

/-- Mutator `InlineString::truncate`: no-op when `new_len >= length`; otherwise assert
the char boundary (panic modelled as `none`) and set the length. -/
def InlineString.truncate (st : InlineString) (new_len : Nat) :
    Option InlineString :=
  if new_len < st.len then
    if isCharBoundary st.as_bytes new_len then
      some { st with length := new_len % 256 }
    else none
  else some st

/-- Mutator `InlineString::pop`: the last element of `char_indices`, if any, gives the
returned character and the new length. -/
def InlineString.pop (st : InlineString) : Option Nat × InlineString :=
  match (charIndices st.as_bytes).reverse.head? with
  | none => (none, st)
  | some (idx, ch) => (some ch, { st with length := idx % 256 })

/-- Mutator `InlineString::remove` as written in the source: slice the occupied bytes
at `idx` (panicking — `none` — when `idx` is not a char boundary), decode the
character there (panicking when none starts there), then
`bytes.copy_within(idx + ch.len_utf8().., idx)` over the whole fixed array.
The source never updates the `length` field in this function. -/
def InlineString.remove (st : InlineString) (idx : Nat) :
    Option (Nat × InlineString) :=
  if isCharBoundary st.as_bytes idx then
    match decodeChar (st.as_bytes.drop idx) with
    | none => none
    | some (ch, _) =>
      some (ch,
        { st with
          bytes := st.bytes.take idx ++ st.bytes.drop (idx + utf8Len ch) ++
            st.bytes.drop (INLINE_STRING_CAPACITY - utf8Len ch) })
  else none

/-- Mutator `InlineString::insert`: the check `assert!(idx <= self.len())` (panic modelled as
`none`; the source performs no char-boundary check), capacity check, then the
overlap-tolerant shift `ptr::copy` of `bytes[idx..length]` to `idx + char_len`
followed by writing the character bytes into the gap. -/
def InlineString.insert (st : InlineString) (idx : Nat) (ch : Nat) :
    Option (Except NotEnoughSpaceError Unit × InlineString) :=
  if idx ≤ st.len then
    let char_len := utf8Len ch
    let new_length := st.len + char_len
    if INLINE_STRING_CAPACITY < new_length then
      some (Except.error NotEnoughSpaceError.notEnoughSpace, st)
    else
      let shifted := st.bytes.take (idx + char_len) ++
        (st.bytes.drop idx).take (st.len - idx) ++
        st.bytes.drop (st.len + char_len)
      some (Except.ok (),
        { length := new_length % 256
          bytes := writeBytes shifted idx (encodeChar ch) })
  else none

/-- Mutator `InlineString::clear`: set the length to zero, touching no byte. -/
def InlineString.clear (st : InlineString) : InlineString :=
  { st with length := 0 }

/-- Conversion `InlineString::into_bytes`: zero every byte at an index `>= length` and
return the full fixed array. -/
def InlineString.into_bytes (st : InlineString) : List Nat :=
  writeBytes st.bytes st.length
    (List.replicate (INLINE_STRING_CAPACITY - st.length) 0)

/-- The `PartialEq<InlineString>` impl: compare the occupied prefixes. -/
def InlineString.eq_inline (a b : InlineString) : Bool :=
  a.as_bytes == b.as_bytes

/-- The `PartialEq<str>` impl produced by `impl_eq!`: compare the occupied
prefix against the byte sequence of the slice. -/
def InlineString.eq_str (a : InlineString) (s : List Nat) : Bool :=
  a.as_bytes == s

/-- Concatenation of the UTF-8 encodings of a character sequence. -/
def encodeList : List Nat → List Nat
  | [] => []
  | c :: cs => encodeChar c ++ encodeList cs

/-- The byte offset and scalar value of each character of a character
sequence, starting from byte offset `off`. -/
def offsetsOf (off : Nat) : List Nat → List (Nat × Nat)
  | [] => []
  | c :: cs => (off, c) :: offsetsOf (off + utf8Len c) cs

/-! ### Helper lemmas -/

theorem encodeChar_length (c : Nat) : (encodeChar c).length = utf8Len c := by
  unfold encodeChar utf8Len
  split_ifs <;> rfl

theorem utf8Len_pos (c : Nat) : 1 ≤ utf8Len c := by
  unfold utf8Len
  split_ifs <;> omega

/-! ### Claim theorems -/

/-- C1: the specification requires `remove(idx)` to shift the trailing bytes
left and decrement `length` by the width of the removed character; starting
from `fromSlice("foo")`, `remove(0)` must return `f` and leave content `oo`.
The code returns `f` and shifts, but never decrements `length`: the state has
`length = 3` and its content compares unequal to `oo`. -/
theorem c1_remove_eval :
    try_from [102, 111, 111] =
      Except.ok ⟨3, [102, 111, 111] ++ List.replicate 27 0⟩ ∧
    InlineString.remove ⟨3, [102, 111, 111] ++ List.replicate 27 0⟩ 0 =
      some (102, ⟨3, [111, 111] ++ List.replicate 28 0⟩) ∧
    (⟨3, [111, 111] ++ List.replicate 28 0⟩ : InlineString).length = 3 ∧
    InlineString.eq_str ⟨3, [111, 111] ++ List.replicate 28 0⟩ [111, 111] = false :=
  ⟨rfl, rfl, rfl, rfl⟩

/-- C2: the invariant `bytes[0..length]` is valid UTF-8 is broken by the code:
after `fromSlice("aé")`, `truncate(1)`, `remove(0)` — all successful public
mutations — the occupied range is the lone continuation byte `0xC3`, which is
not valid UTF-8, and the debug sanity assertion fails on the resulting state. -/
theorem c2_utf8_invariant_broken :
    try_from [97, 195, 169] =
      Except.ok ⟨3, [97, 195, 169] ++ List.replicate 27 0⟩ ∧
    InlineString.truncate ⟨3, [97, 195, 169] ++ List.replicate 27 0⟩ 1 =
      some ⟨1, [97, 195, 169] ++ List.replicate 27 0⟩ ∧
    InlineString.remove ⟨1, [97, 195, 169] ++ List.replicate 27 0⟩ 0 =
      some (97, ⟨1, [195, 169] ++ List.replicate 28 0⟩) ∧
    validUtf8 ((⟨1, [195, 169] ++ List.replicate 28 0⟩ : InlineString).as_bytes) = false ∧
    assert_sanity ⟨1, [195, 169] ++ List.replicate 28 0⟩ = false :=
  ⟨rfl, rfl, rfl, rfl, rfl⟩

/-- C5: the claim requires `insert` at a non-char-boundary index to fault
before any byte is written.  On the buffer `é` (bytes `C3 A9`), index `1` is
not a char boundary, yet the code returns success and writes the buffer,
leaving the invalid UTF-8 content `C3 61 A9`. -/
theorem c5_insert_no_boundary_fault :
    isCharBoundary
      ((⟨2, [195, 169] ++ List.replicate 28 0⟩ : InlineString).as_bytes) 1 = false ∧
    InlineString.insert ⟨2, [195, 169] ++ List.replicate 28 0⟩ 1 97 =
      some (Except.ok (), ⟨3, [195, 97, 169] ++ List.replicate 27 0⟩) ∧
    validUtf8 ((⟨3, [195, 97, 169] ++ List.replicate 27 0⟩ : InlineString).as_bytes) = false :=
  ⟨rfl, rfl, rfl⟩

/-- C6: the claim requires `insert(idx, c)` followed by `remove(idx)` to return
`c` and restore the exact prior content.  Starting from content `a`,
`insert(0, b)` then `remove(0)` returns `b` but leaves content `a\0` (length
still `2` because `remove` never decrements the length), not `a`. -/
theorem c6_insert_remove_not_inverse :
    InlineString.insert ⟨1, 97 :: List.replicate 29 0⟩ 0 98 =
      some (Except.ok (), ⟨2, [98, 97] ++ List.replicate 28 0⟩) ∧
    InlineString.remove ⟨2, [98, 97] ++ List.replicate 28 0⟩ 0 =
      some (98, ⟨2, 97 :: List.replicate 29 0⟩) ∧
    (⟨2, 97 :: List.replicate 29 0⟩ : InlineString).as_bytes ≠
      (⟨1, 97 :: List.replicate 29 0⟩ : InlineString).as_bytes :=
  ⟨rfl, rfl, by decide⟩

/-- C9: `clear()` sets the length to `0` and leaves every byte of the fixed
storage array unchanged. -/
theorem c9_clear_frame (st : InlineString) :
    (st.clear).length = 0 ∧ (st.clear).bytes = st.bytes :=
  ⟨rfl, rfl⟩

/-- C10: equality between two `InlineString` values depends only on the
occupied prefixes `bytes[0..length]`: whenever those agree the comparison
returns `true`, whatever the stale bytes hold. -/
theorem c10_eq_ignores_stale (a b : InlineString)
    (h : a.as_bytes = b.as_bytes) :
    InlineString.eq_inline a b = true := by
  simp [InlineString.eq_inline, h]

/-- Witness for C10 at two buffers with equal content `hi` but different
stale bytes. -/
theorem c10_witness :
    (⟨2, [104, 105] ++ List.replicate 28 0⟩ : InlineString).as_bytes =
      (⟨2, [104, 105] ++ List.replicate 28 7⟩ : InlineString).as_bytes ∧
    InlineString.eq_inline ⟨2, [104, 105] ++ List.replicate 28 0⟩
      ⟨2, [104, 105] ++ List.replicate 28 7⟩ = true :=
  ⟨by decide, c10_eq_ignores_stale _ _ (by decide)⟩

/-- C4: `push_str` is atomic — whenever `length + byteLength(s)` exceeds the
capacity it fails with the capacity error and both the byte array and the
length field are exactly what they were before the call. -/
theorem c4_push_str_atomic (st : InlineString) (s : List Nat)
    (h : INLINE_STRING_CAPACITY < st.len + s.length) :
    st.push_str s = (Except.error NotEnoughSpaceError.notEnoughSpace, st) ∧
    (st.push_str s).2.bytes = st.bytes ∧
    (st.push_str s).2.length = st.length := by
  have hps : st.push_str s = (Except.error NotEnoughSpaceError.notEnoughSpace, st) := by
    simp only [InlineString.push_str]
    rw [if_pos h]
  exact ⟨hps, by rw [hps], by rw [hps]⟩

/-- Witness for C4 at a one-byte buffer and a 30-byte string. -/
theorem c4_witness :
    INLINE_STRING_CAPACITY <
      (⟨1, 97 :: List.replicate 29 0⟩ : InlineString).len +
        (List.replicate 30 97).length ∧
    InlineString.push_str ⟨1, 97 :: List.replicate 29 0⟩ (List.replicate 30 97) =
      (Except.error NotEnoughSpaceError.notEnoughSpace,
        ⟨1, 97 :: List.replicate 29 0⟩) :=
  ⟨by decide, (c4_push_str_atomic _ _ (by decide)).1⟩

/-- C3: for every valid UTF-8 byte sequence `s`, `try_from s` succeeds exactly
when `byteLength(s) <= INLINE_STRING_CAPACITY`; on success the result reports
`len() = byteLength(s)` and compares equal to `s`, and otherwise the
construction fails with the capacity error and produces no value. -/
theorem c3_try_from_spec (s : List Nat) (_hs : validUtf8 s = true) :
    (s.length ≤ INLINE_STRING_CAPACITY →
      try_from s = Except.ok (from_str_unchecked s) ∧
      (from_str_unchecked s).len = s.length ∧
      InlineString.eq_str (from_str_unchecked s) s = true) ∧
    (INLINE_STRING_CAPACITY < s.length →
      try_from s = Except.error NotEnoughCapacityError.notEnoughCapacity) := by
  constructor
  · intro h
    have h256 : s.length % 256 = s.length := by
      apply Nat.mod_eq_of_lt
      unfold INLINE_STRING_CAPACITY at h
      omega
    refine ⟨by rw [try_from, if_pos h], ?_, ?_⟩
    · rw [InlineString.len, from_str_unchecked, h256]
    · rw [InlineString.eq_str, InlineString.as_bytes, from_str_unchecked]
      show ((InlineString.new.bytes.take 0 ++ s ++
          InlineString.new.bytes.drop (0 + s.length)).take (s.length % 256) == s) = true
      rw [h256, List.take_zero, List.nil_append, List.take_left]
      exact beq_self_eq_true s
  · intro h
    rw [try_from, if_neg (by omega)]

/-- Witness for C3 at the two-byte string `hi`. -/
theorem c3_witness :
    validUtf8 [104, 105] = true ∧
    ([104, 105].length ≤ INLINE_STRING_CAPACITY →
      try_from [104, 105] = Except.ok (from_str_unchecked [104, 105]) ∧
      (from_str_unchecked [104, 105]).len = [104, 105].length ∧
      InlineString.eq_str (from_str_unchecked [104, 105]) [104, 105] = true) ∧
    (INLINE_STRING_CAPACITY < [104, 105].length →
      try_from [104, 105] = Except.error NotEnoughCapacityError.notEnoughCapacity) :=
  ⟨by decide, c3_try_from_spec [104, 105] (by decide)⟩

/-- C8: `into_bytes` returns exactly `INLINE_STRING_CAPACITY` bytes whose first
`length` bytes are the buffer content and whose bytes at every index
`>= length` are zero, for every buffer with the fixed storage shape. -/
theorem c8_into_bytes_spec (st : InlineString)
    (hb : st.bytes.length = INLINE_STRING_CAPACITY)
    (hl : st.length ≤ INLINE_STRING_CAPACITY) :
    (st.into_bytes).length = INLINE_STRING_CAPACITY ∧
    (st.into_bytes).take st.length = st.as_bytes ∧
    (st.into_bytes).drop st.length =
      List.replicate (INLINE_STRING_CAPACITY - st.length) 0 := by
  have htake : (st.bytes.take st.length).length = st.length := by
    rw [List.length_take]
    omega
  have hdrop : st.bytes.drop (st.length + (INLINE_STRING_CAPACITY - st.length)) = [] := by
    have h1 : st.length + (INLINE_STRING_CAPACITY - st.length) = INLINE_STRING_CAPACITY := by
      omega
    rw [h1, ← hb, List.drop_length]
  have hib : st.into_bytes =
      st.bytes.take st.length ++ List.replicate (INLINE_STRING_CAPACITY - st.length) 0 := by
    rw [InlineString.into_bytes, writeBytes, List.length_replicate, hdrop, List.append_nil]
  refine ⟨?_, ?_, ?_⟩
  · rw [hib, List.length_append, htake, List.length_replicate]
    omega
  · rw [hib, List.take_left' htake, InlineString.as_bytes]
  · rw [hib, List.drop_left' htake]

/-- Witness for C8 at a buffer holding `a` with a nonzero stale byte. -/
theorem c8_witness :
    (⟨1, [97, 98] ++ List.replicate 28 7⟩ : InlineString).bytes.length =
      INLINE_STRING_CAPACITY ∧
    (⟨1, [97, 98] ++ List.replicate 28 7⟩ : InlineString).length ≤
      INLINE_STRING_CAPACITY ∧
    (InlineString.into_bytes ⟨1, [97, 98] ++ List.replicate 28 7⟩).length =
      INLINE_STRING_CAPACITY ∧
    (InlineString.into_bytes ⟨1, [97, 98] ++ List.replicate 28 7⟩).take 1 =
      (⟨1, [97, 98] ++ List.replicate 28 7⟩ : InlineString).as_bytes ∧
    (InlineString.into_bytes ⟨1, [97, 98] ++ List.replicate 28 7⟩).drop 1 =
      List.replicate (INLINE_STRING_CAPACITY - 1) 0 :=
  ⟨by decide, by decide,
    (c8_into_bytes_spec _ (by decide) (by decide)).1,
    (c8_into_bytes_spec ⟨1, [97, 98] ++ List.replicate 28 7⟩ (by decide) (by decide)).2.1,
    (c8_into_bytes_spec ⟨1, [97, 98] ++ List.replicate 28 7⟩ (by decide) (by decide)).2.2⟩

theorem decode_encode (c : Nat) (rest : List Nat) (hc : Scalar c) :
    decodeChar (encodeChar c ++ rest) = some (c, utf8Len c) := by
  obtain ⟨h1, h2⟩ := hc
  unfold encodeChar utf8Len
  split_ifs with ha hb hcc
  · show decodeChar (c :: rest) = some (c, 1)
    simp only [decodeChar]
    rw [if_pos ha]
  · show decodeChar ((0xC0 + c / 64) :: (0x80 + c % 64) :: rest) = some (c, 2)
    simp only [decodeChar, decodeTail2]
    rw [if_neg (by omega), if_neg (by omega), if_pos (by omega), if_pos (by omega)]
    simp only [Option.some.injEq, Prod.mk.injEq]
    exact ⟨by omega, trivial⟩
  · show decodeChar ((0xE0 + c / 4096) :: (0x80 + c / 64 % 64) :: (0x80 + c % 64) :: rest) =
      some (c, 3)
    simp only [decodeChar, decodeTail3]
    rw [if_neg (by omega), if_neg (by omega), if_neg (by omega), if_pos (by omega)]
    rw [if_pos (by refine ⟨by omega, by omega, ?_, ?_⟩ <;> intro hb0 <;> omega)]
    simp only [Option.some.injEq, Prod.mk.injEq]
    exact ⟨by omega, trivial⟩
  · show decodeChar ((0xF0 + c / 262144) :: (0x80 + c / 4096 % 64) ::
      (0x80 + c / 64 % 64) :: (0x80 + c % 64) :: rest) = some (c, 4)
    simp only [decodeChar, decodeTail4]
    rw [if_neg (by omega), if_neg (by omega), if_neg (by omega), if_neg (by omega),
      if_pos (by omega)]
    rw [if_pos (by refine ⟨by omega, by omega, by omega, ?_, ?_⟩ <;> intro hb0 <;> omega)]
    simp only [Option.some.injEq, Prod.mk.injEq]
    exact ⟨by omega, trivial⟩

theorem encodeList_append (cs ds : List Nat) :
    encodeList (cs ++ ds) = encodeList cs ++ encodeList ds := by
  induction cs with
  | nil => rfl
  | cons c cs ih => simp [encodeList, ih]

theorem charIdxGo_encode (cs : List Nat) :
    ∀ fuel off, (∀ c ∈ cs, Scalar c) → (encodeList cs).length ≤ fuel →
      charIdxGo fuel off (encodeList cs) = offsetsOf off cs := by
  induction cs with
  | nil => intro fuel off _ _; cases fuel <;> rfl
  | cons c cs ih =>
    intro fuel off hsc hfuel
    have hc : Scalar c := hsc c (by simp)
    have hlen : (encodeChar c).length = utf8Len c := encodeChar_length c
    have hwpos : 1 ≤ utf8Len c := utf8Len_pos c
    have hlist : encodeList (c :: cs) = encodeChar c ++ encodeList cs := rfl
    rw [hlist] at hfuel ⊢
    obtain ⟨b, t, hbt⟩ : ∃ b t, encodeChar c = b :: t := by
      cases henc : encodeChar c with
      | nil => rw [henc] at hlen; simp at hlen; omega
      | cons b t => exact ⟨b, t, rfl⟩
    cases fuel with
    | zero =>
      exfalso
      rw [List.length_append, hlen] at hfuel
      omega
    | succ f =>
      rw [hbt, List.cons_append, charIdxGo, ← List.cons_append, ← hbt]
      rw [decode_encode c (encodeList cs) hc]
      show (off, c) :: charIdxGo f (off + utf8Len c)
          (List.drop (utf8Len c) (encodeChar c ++ encodeList cs)) =
        offsetsOf off (c :: cs)
      rw [List.drop_left' (by rw [hlen])]
      show _ = (off, c) :: offsetsOf (off + utf8Len c) cs
      congr 1
      apply ih f (off + utf8Len c) (fun x hx => hsc x (by simp [hx]))
      rw [List.length_append, hlen] at hfuel
      omega

theorem charIndices_encode (cs : List Nat) (hsc : ∀ c ∈ cs, Scalar c) :
    charIndices (encodeList cs) = offsetsOf 0 cs :=
  charIdxGo_encode cs (encodeList cs).length 0 hsc (Nat.le_refl _)

theorem offsetsOf_append (off : Nat) (cs ds : List Nat) :
    offsetsOf off (cs ++ ds) =
      offsetsOf off cs ++ offsetsOf (off + (encodeList cs).length) ds := by
  induction cs generalizing off with
  | nil => simp [offsetsOf, encodeList]
  | cons c cs ih =>
    show (off, c) :: offsetsOf (off + utf8Len c) (cs ++ ds) =
      offsetsOf off (c :: cs) ++ offsetsOf (off + (encodeList (c :: cs)).length) ds
    rw [ih]
    rw [show offsetsOf off (c :: cs) = (off, c) :: offsetsOf (off + utf8Len c) cs from rfl]
    rw [List.cons_append]
    have harg : off + utf8Len c + (encodeList cs).length =
        off + (encodeList (c :: cs)).length := by
      rw [show encodeList (c :: cs) = encodeChar c ++ encodeList cs from rfl]
      rw [List.length_append, encodeChar_length]
      omega
    rw [harg]

theorem last_offsetsOf (off : Nat) (cs : List Nat) (c : Nat) :
    (offsetsOf off (cs ++ [c])).reverse.head? =
      some (off + (encodeList cs).length, c) := by
  rw [offsetsOf_append]
  rw [show offsetsOf (off + (encodeList cs).length) [c] =
      [(off + (encodeList cs).length, c)] from rfl]
  rw [List.reverse_append]
  rfl

/-- C7: on any well-formed buffer with room for the character, `push(c)`
succeeds and an immediately following `pop()` returns `c` and restores the
prior content; and `pop()` on any empty buffer returns an empty result
without faulting and without changing the state. -/
theorem c7_push_pop (st t : InlineString) (cs : List Nat) (c : Nat)
    (hb : st.bytes.length = INLINE_STRING_CAPACITY)
    (hl : st.length ≤ INLINE_STRING_CAPACITY)
    (henc : st.as_bytes = encodeList cs)
    (hsc : ∀ x ∈ cs, Scalar x)
    (hc : Scalar c)
    (hroom : st.length + utf8Len c ≤ INLINE_STRING_CAPACITY)
    (ht : t.length = 0) :
    (st.push c).1 = Except.ok () ∧
    ((st.push c).2).pop.1 = some c ∧
    (((st.push c).2).pop.2).as_bytes = st.as_bytes ∧
    t.pop = (none, t) := by
  have h30 : INLINE_STRING_CAPACITY = 30 := rfl
  rw [h30] at hb hl hroom
  have hmod : (st.length + utf8Len c) % 256 = st.length + utf8Len c :=
    Nat.mod_eq_of_lt (by omega)
  have hmodL : st.length % 256 = st.length := Nat.mod_eq_of_lt (by omega)
  have hBlen : (st.bytes.take st.length).length = st.length := by
    rw [List.length_take]
    omega
  have hpush : st.push c = (Except.ok (),
      { length := (st.length + utf8Len c) % 256
        bytes := writeBytes st.bytes st.length (encodeChar c) }) := by
    simp only [InlineString.push, InlineString.len]
    rw [if_neg (by rw [h30]; omega)]
  have hlen2 : ((st.push c).2).length = st.length + utf8Len c := by
    rw [hpush]
    exact hmod
  have hbytes2 : ((st.push c).2).bytes =
      st.bytes.take st.length ++ encodeChar c ++
        st.bytes.drop (st.length + (encodeChar c).length) := by
    rw [hpush]
    rfl
  have hAE : st.bytes.take st.length = encodeList cs := henc
  have hAElen : (st.bytes.take st.length ++ encodeChar c).length =
      st.length + utf8Len c := by
    rw [List.length_append, hBlen, encodeChar_length]
  have hcontent2 : ((st.push c).2).as_bytes = encodeList (cs ++ [c]) := by
    rw [InlineString.as_bytes, hlen2, hbytes2]
    rw [List.take_left' hAElen]
    rw [hAE, encodeList_append]
    rw [show encodeList [c] = encodeChar c ++ encodeList [] from rfl]
    rw [show encodeList ([] : List Nat) = [] from rfl, List.append_nil]
  have hidxeq : charIndices (((st.push c).2).as_bytes) = offsetsOf 0 (cs ++ [c]) := by
    rw [hcontent2]
    apply charIndices_encode
    intro x hx
    rcases List.mem_append.mp hx with h | h
    · exact hsc x h
    · have hxc : x = c := List.mem_singleton.mp h
      rw [hxc]
      exact hc
  have hkL : (encodeList cs).length = st.length := by
    rw [← hAE]
    exact hBlen
  have hlast : (charIndices (((st.push c).2).as_bytes)).reverse.head? =
      some (st.length, c) := by
    rw [hidxeq]
    have h := last_offsetsOf 0 cs c
    rw [Nat.zero_add] at h
    rw [h, hkL]
  have hpop : ((st.push c).2).pop =
      (some c, { (st.push c).2 with length := st.length % 256 }) := by
    simp only [InlineString.pop]
    rw [hlast]
  refine ⟨by rw [hpush], by rw [hpop], ?_, ?_⟩
  · rw [hpop]
    show ((st.push c).2).bytes.take (st.length % 256) = st.as_bytes
    rw [hmodL, hbytes2, List.append_assoc, List.take_left' hBlen,
      InlineString.as_bytes]
  · have htb : t.as_bytes = [] := by
      rw [InlineString.as_bytes, ht]
      rfl
    simp only [InlineString.pop, htb]
    rfl

/-- Witness for C7 at the buffer holding `a`, pushing `b`, and the empty
buffer for the pop-on-empty part. -/
theorem c7_witness :
    ((⟨1, 97 :: List.replicate 29 0⟩ : InlineString).push 98).1 = Except.ok () ∧
    (((⟨1, 97 :: List.replicate 29 0⟩ : InlineString).push 98).2).pop.1 = some 98 ∧
    ((((⟨1, 97 :: List.replicate 29 0⟩ : InlineString).push 98).2).pop.2).as_bytes =
      (⟨1, 97 :: List.replicate 29 0⟩ : InlineString).as_bytes ∧
    InlineString.new.pop = (none, InlineString.new) :=
  c7_push_pop ⟨1, 97 :: List.replicate 29 0⟩ InlineString.new [97] 98
    (by decide) (by decide) (by decide) (by decide) (by decide) (by decide) rfl
